import Mathlib

/-!
Verification development for the image-tag / build-planning module
(`src/build/src/utils/config.js`).

The JavaScript module is embedded shallowly:

* JS objects holding per-definition manifest data become the `Config`
  structure (association lists keyed by definition id, in insertion order).
* JS string `.replace` with a string pattern (first occurrence) and with the
  specific regexes used by the source are implemented as executable functions
  on `List Char`, lifted to `String`.
* JS functions that can throw (`getTagList`, the build planner) return
  `Except String`; functions that return `null` for unknown ids return
  `Option`.
* The module-level mutable state of the build planner (`variantsList`,
  `skipParentVariants`) becomes an explicit `PlannerState` value threaded
  through the planner, so that the cross-call leakage of the source is
  representable.
-/

namespace ImagesConfig

/-- A `{ id, variant }` object as produced by `getDefinitionObject` and stored
in `definitionTagLookup`.  `variant = none` models a JS `undefined` variant. -/
structure DefObj where
  id : String
  variant : Option String
deriving DecidableEq, Repr

/-- The `latest` property of a manifest `build` section: absent, a boolean, or
a variant name. -/
inductive LatestProp where
  | undef
  | ofBool (b : Bool)
  | ofString (s : String)
deriving DecidableEq, Repr

/-- The `parent` property of a manifest `build` section: a single parent id or
a variant-to-parent-id mapping (multi-parent). -/
inductive Parent where
  | single (id : String)
  | multi (variantMap : List (String × String))
deriving DecidableEq, Repr

/-- One entry of `config.definitionBuildSettings`: the parsed `build` section
of a manifest.  `tags = none` models an absent `tags` array.  `idMismatch`
models the JS comparison `idMismatch === "true"`. -/
structure BuildSettings where
  tags : Option (List String) := none
  parent : Option Parent := none
  variantTags : Option (List (String × List String)) := none
  versionedTagsOnly : Bool := false
  latest : LatestProp := .undef
  idMismatch : Bool := false
deriving DecidableEq, Repr

/-- The in-memory registry: `config.definitionBuildSettings`,
`config.definitionVariants` and `config.definitionVersions`, as association
lists in key-insertion order (JS object iteration order). -/
structure Config where
  definitionBuildSettings : List (String × BuildSettings) := []
  definitionVariants : List (String × List String) := []
  definitionVersions : List (String × String) := []
deriving Repr

/-- JS object property read: first (unique) key match. -/
def lookupAssoc {α : Type} (l : List (String × α)) (k : String) : Option α :=
  (l.find? (fun p => p.1 == k)).map (fun p => p.2)

/-! ### String helpers (JS `.replace` and friends) -/

/-- JS `s.replace(pat, repl)` with a *string* pattern: replace the first
occurrence only. -/
def replaceFirstL (pat repl : List Char) : List Char → List Char
  | [] => if pat = [] then repl else []
  | c :: rest =>
    if pat.isPrefixOf (c :: rest) then repl ++ (c :: rest).drop pat.length
    else c :: replaceFirstL pat repl rest

/-- `String` version of `replaceFirstL`. -/
def replaceFirstStr (pat repl s : String) : String :=
  String.mk (replaceFirstL pat.toList repl.toList s.toList)

/-- Match the regex `\$\{?VARIANT\}?` at the head of the character list;
returns the remainder after the match. -/
def matchVariantAt : List Char → Option (List Char)
  | '$' :: rest =>
    match rest with
    | '\x7b' :: r2 =>
      if ("VARIANT".toList).isPrefixOf r2 then
        let r3 := r2.drop 7
        match r3 with
        | '\x7d' :: r4 => some r4
        | _ => some r3
      else none
    | _ =>
      if ("VARIANT".toList).isPrefixOf rest then
        let r3 := rest.drop 7
        match r3 with
        | '\x7d' :: r4 => some r4
        | _ => some r3
      else none
  | _ => none

/-- JS `s.replace(/\$\{?VARIANT\}?/, repl)`: replace the first (leftmost)
match of the variant placeholder. -/
def replaceVariantL (repl : List Char) : List Char → List Char
  | [] => []
  | c :: rest =>
    match matchVariantAt (c :: rest) with
    | some rem => repl ++ rem
    | none => c :: replaceVariantL repl rest

/-- `String` version of `replaceVariantL`. -/
def replaceVariantStr (repl s : String) : String :=
  String.mk (replaceVariantL repl.toList s.toList)

/-- JS `definitionId.replace(dash-regex with mg flags, '')`: remove every
dash. -/
def stripDashes (s : String) : String :=
  String.mk (s.toList.filter (fun c => c ≠ '-'))

/-- Last character test used by `getTagsForVersion`
(`baseTag.charAt(baseTag.length - 1) !== ':'`; for the empty string JS
`charAt(-1)` is `""`, which is not `':'`). -/
def endsWithColon (s : String) : Bool :=
  s.toList.getLast? == some ':'

/-- JS `s.replace(/:.+/, ':latest')` as used by `getLatestTag`: everything
from the first `':'` that is followed by at least one character to the end of
the string is replaced by `:latest`.  A trailing lone `':'` (or no `':'` at
all) is left unchanged. -/
def replaceColonRestL : List Char → List Char
  | [] => []
  | c :: rest =>
    if c = ':' ∧ rest ≠ [] then ':' :: "latest".toList
    else c :: replaceColonRestL rest

/-- `String` version of `replaceColonRestL`. -/
def replaceColonRestStr (s : String) : String :=
  String.mk (replaceColonRestL s.toList)

/-- JS `s.split(sep)` for a one-character separator (the source only splits
on `'.'` and `'-'`). -/
def splitOnChar (sep : Char) : List Char → List (List Char)
  | [] => [[]]
  | c :: rest =>
    match splitOnChar sep rest with
    | [] => [[]]
    | p :: ps => if c = sep then [] :: p :: ps else (c :: p) :: ps

/-- `String` version of `splitOnChar`. -/
def jsSplit (sep : Char) (s : String) : List String :=
  (splitOnChar sep s.toList).map String.mk

/-- JS `tagPart.replace(regex caret digits dash, '')`: strip one leading run
of ASCII digits followed by a dash, if present. -/
def stripLeadingNumDash (s : String) : String :=
  let cs := s.toList
  let ds := cs.takeWhile Char.isDigit
  if ds ≠ [] then
    match cs.drop ds.length with
    | '-' :: rest => String.mk rest
    | _ => s
  else s

/-! ### Tag generator -/

/-- `getVariants(definitionId)`: `config.definitionVariants[definitionId] || null`. -/
def getVariants (cfg : Config) (definitionId : String) : Option (List String) :=
  lookupAssoc cfg.definitionVariants definitionId

/-- JS truthiness of the `variant` argument (`!variant`): `undefined` and the
empty string are falsy. -/
def optFalsy : Option String → Bool
  | none => true
  | some s => s == ""

/-- Version rewriting at the top of `getTagsForVersion`: a `'dev'` version of
a `versionedTagsOnly` definition becomes `dev-<id without dashes>`. -/
def effectiveVersion (bs : BuildSettings) (definitionId version : String) : String :=
  if version == "dev" then
    if bs.versionedTagsOnly then "dev-" ++ stripDashes definitionId else "dev"
  else version

/-- Variant defaulting in `getTagsForVersion`: if the passed variant is falsy,
use the definition's first declared variant, or `NOVARIANT` if the definition
declares no variants.  (A declared empty variant list is truthy in JS, so it
yields `variants[0] = undefined`, i.e. `none`.) -/
def defaultedVariant (cfg : Config) (definitionId : String) (variant? : Option String) :
    Option String :=
  if optFalsy variant? then
    match getVariants cfg definitionId with
    | some vs => vs.head?
    | none => some "NOVARIANT"
  else variant?

/-- Tag template set of `getTagsForVersion`: the base `tags` plus
variant-specific tags.  If the variant is one of the lookup placeholders
`${VARIANT}` / `$VARIANT`, the tag lists of *all* variants are appended (in
key order); otherwise only the matching variant's list (if any). -/
def effectiveTags (bs : BuildSettings) (tags0 : List String) (variant? : Option String) :
    List String :=
  if variant? == some "${VARIANT}" || variant? == some "$VARIANT" then
    match bs.variantTags with
    | some vt => vt.foldl (fun tags entry => tags ++ entry.2) tags0
    | none => tags0
  else
    match bs.variantTags with
    | some vt =>
      match variant? with
      | some v => tags0 ++ ((lookupAssoc vt v).getD [])
      | none => tags0
    | none => tags0

/-- The substitution value `variant || 'NOVARIANT'` used inside the template
substitution. -/
def variantSubstValue : Option String → String
  | some v => if v == "" then "NOVARIANT" else v
  | none => "NOVARIANT"

/-- The per-template substitution pipeline of `getTagsForVersion`:
`tag.replace('${VERSION}', version).replace(':-', ':')
   .replace(/\$\{?VARIANT\}?/, variant || 'NOVARIANT').replace('-NOVARIANT', '')`. -/
def substituteTag (version variantStr tag : String) : String :=
  replaceFirstStr "-NOVARIANT" ""
    (replaceVariantStr variantStr
      (replaceFirstStr ":-" ":"
        (replaceFirstStr "${VERSION}" version tag)))

/-- Body of `getTagsForVersion` once the definition is known and its `tags`
array exists: the `tags.reduce` that substitutes each template, discards
results ending in `':'`, and prefixes the rest with
`<registry>/<registryPath>/`. -/
def getTagsForVersionCore (cfg : Config) (definitionId : String) (bs : BuildSettings)
    (tags0 : List String) (version registry registryPath : String)
    (variant? : Option String) : List String :=
  let version := effectiveVersion bs definitionId version
  let variant? := defaultedVariant cfg definitionId variant?
  let tags := effectiveTags bs tags0 variant?
  tags.foldl (fun list tag =>
    if endsWithColon (substituteTag version (variantSubstValue variant?) tag) then list
    else
      list ++ [registry ++ "/" ++ registryPath ++ "/" ++
        substituteTag version (variantSubstValue variant?) tag]) []

/-- The bare (unprefixed) surviving tags of `getTagsForVersion`, in template
order.  `getTagsForVersionCore` is exactly `baseTagsForVersion` mapped under
the registry prefix (`core_eq_map_baseTags`). -/
def baseTagsForVersion (cfg : Config) (definitionId : String) (bs : BuildSettings)
    (tags0 : List String) (version : String) (variant? : Option String) : List String :=
  let version := effectiveVersion bs definitionId version
  let variant? := defaultedVariant cfg definitionId variant?
  (effectiveTags bs tags0 variant?).filterMap (fun tag =>
    if endsWithColon (substituteTag version (variantSubstValue variant?) tag) then none
    else some (substituteTag version (variantSubstValue variant?) tag))

/-- `getTagsForVersion(definitionId, version, registry, registryPath, variant)`.
Returns `.ok none` (JS `null`) for an unknown definition; throws a
`TypeError` (JS `tags.reduce` / `tags.concat` on `undefined`) when the
definition has no `tags`; otherwise returns the substituted tag list. -/
def getTagsForVersion (cfg : Config) (definitionId version registry registryPath : String)
    (variant? : Option String) : Except String (Option (List String)) :=
  match lookupAssoc cfg.definitionBuildSettings definitionId with
  | none => .ok none
  | some bs =>
    match bs.tags with
    | none => .error "TypeError: tags is undefined"
    | some tags0 =>
      .ok (some (getTagsForVersionCore cfg definitionId bs tags0 version registry
        registryPath variant?))

/-- `getVersionFromRelease(release, definitionId)`: a release string starting
with `v` followed by an ASCII digit (`parseInt(release.charAt(1))` is a
number) looks up the recorded version — which may be absent (`none`, JS
`undefined`); anything else is a branch and resolves to `"dev"`. -/
def isVersionRelease (release : String) : Bool :=
  match release.toList with
  | 'v' :: c :: _ => c.isDigit
  | _ => false

/-- See `isVersionRelease`.  `none` models JS `undefined` (no recorded
version for a `v<digit>...` release). -/
def getVersionFromRelease (cfg : Config) (release definitionId : String) : Option String :=
  if isVersionRelease release then lookupAssoc cfg.definitionVersions definitionId
  else some "dev"

/-- Body of `getLatestTag` once the definition and its `tags` are known: the
`tags.reduce` that rewrites each template's suffix after the first content
colon to `latest`, prefixes it, and deduplicates preserving first-seen
order. -/
def getLatestTagCore (tags : List String) (registry registryPath : String) : List String :=
  tags.foldl (fun list tag =>
    let latest := registry ++ "/" ++ registryPath ++ "/" ++ replaceColonRestStr tag
    if list.contains latest then list else list ++ [latest]) []

/-- `getLatestTag(definitionId, registry, registryPath)`: `.ok none` (JS
`null`) for an unknown definition; `TypeError` when `tags` is absent
(`tags.reduce` on `undefined`); otherwise the deduplicated latest list. -/
def getLatestTag (cfg : Config) (definitionId registry registryPath : String) :
    Except String (Option (List String)) :=
  match lookupAssoc cfg.definitionBuildSettings definitionId with
  | none => .ok none
  | some bs =>
    match bs.tags with
    | none => .error "TypeError: tags is undefined"
    | some tags => .ok (some (getLatestTagCore tags registry registryPath))

/-! ### getTagList -/

/-- The `versionPartHandling` argument of `getTagList`: JS allows a boolean or
one of the strings `all-latest`, `all`, `full-only`, `major-minor`, `major`. -/
inductive VersionPartHandling where
  | ofBool (b : Bool)
  | ofString (s : String)
deriving DecidableEq, Repr

/-- The `switch (versionPartHandling)` of `getTagList`: returns
`(updateLatest, updateUnversionedTags, versionList)`.  An unrecognized value
falls through every case, leaving the three variables `undefined` (`none`
here); the subsequent `versionList.forEach` then throws. -/
def vphCase (vph : VersionPartHandling) (version : String) (versionParts : List String) :
    Option (Bool × Bool × List String) :=
  let major := versionParts.getD 0 ""
  let majorMinor := versionParts.getD 0 "" ++ "." ++ versionParts.getD 1 ""
  match vph with
  | .ofBool true => some (true, true, [version, majorMinor, major])
  | .ofString "all-latest" => some (true, true, [version, majorMinor, major])
  | .ofBool false => some (false, true, [version, majorMinor, major])
  | .ofString "all" => some (false, true, [version, majorMinor, major])
  | .ofString "full-only" => some (false, false, [version])
  | .ofString "major-minor" => some (false, false, [majorMinor])
  | .ofString "major" => some (false, false, [major])
  | .ofString _ => none

/-- JS truthiness of the `latest` build property
(`definitionLatestProperty` in `getTagList`). -/
def latestTruthy : LatestProp → Bool
  | .undef => false
  | .ofBool b => b
  | .ofString s => s != ""

/-- JS `variant === definitionLatestProperty`: a strict equality between the
(possibly `undefined`) variant argument and the `latest` property, which can
only hold when `latest` is a string. -/
def variantMatchesLatest (variant? : Option String) : LatestProp → Bool
  | .ofString s => variant? == some s
  | _ => false

/-- JS `definitionLatestProperty === true`. -/
def latestEqTrue : LatestProp → Bool
  | .ofBool true => true
  | _ => false

/-- The `firstVariant` local of `getTagList`:
`allVariants ? allVariants[0] : variant` (an empty declared variant list is
truthy and yields `undefined`). -/
def firstVariantOf (cfg : Config) (definitionId : String) (variant? : Option String) :
    Option String :=
  match getVariants cfg definitionId with
  | some vs => vs.head?
  | none => variant?

/-- The condition under which `getTagList` appends the `latest` tags. -/
def latestCondition (cfg : Config) (definitionId : String) (bs : BuildSettings)
    (updateLatest : Bool) (variant? : Option String) : Bool :=
  updateLatest && latestTruthy bs.latest &&
    ((getVariants cfg definitionId).isNone
      || variantMatchesLatest variant? bs.latest
      || (latestEqTrue bs.latest && variant? == firstVariantOf cfg definitionId variant?))

/-- `getTagList(definitionId, release, versionPartHandling, registry,
registryPath, variant)`.

* When the release resolves to no version at all (a `v<digit>...` release for
  a definition without a recorded version), JS reaches
  `version.split('.')` on `undefined` and throws a `TypeError`.
* When the version is `"dev"`, the dev tag set is returned directly.
* Otherwise the version must split into exactly three dot-separated parts
  (only the *count* is checked), else `Invalid version format` is thrown.
* An unrecognized `versionPartHandling` leaves `versionList` undefined and
  throws at `versionList.forEach`.
* An unknown definition id on this path throws (`.versionedTagsOnly` or
  `.latest` read on `undefined`); a known definition without `tags` throws
  inside `getTagsForVersion`.  Both are modeled by the corresponding
  `TypeError` below (the error message, unobserved by callers, may differ
  from the JS engine's). -/
def getTagList (cfg : Config) (definitionId release : String) (vph : VersionPartHandling)
    (registry registryPath : String) (variant? : Option String) :
    Except String (Option (List String)) :=
  match getVersionFromRelease cfg release definitionId with
  | none => .error "TypeError: version is undefined"
  | some version =>
    if version == "dev" then
      getTagsForVersion cfg definitionId version registry registryPath variant?
    else
      let versionParts := jsSplit '.' version
      if versionParts.length ≠ 3 then
        .error ("Invalid version format in " ++ version ++ ".")
      else
        match vphCase vph version versionParts with
        | none => .error "TypeError: versionList is undefined"
        | some (updateLatest, updateUnversionedTags, versionList0) =>
          match lookupAssoc cfg.definitionBuildSettings definitionId with
          | none => .error "TypeError: build settings are undefined"
          | some bs =>
            match bs.tags with
            | none => .error "TypeError: tags is undefined"
            | some tags0 =>
              let versionList :=
                if updateUnversionedTags && !bs.versionedTagsOnly then versionList0 ++ [""]
                else versionList0
              let tagList := versionList.foldl (fun acc tagVersion =>
                acc ++ getTagsForVersionCore cfg definitionId bs tags0 tagVersion registry
                  registryPath variant?) []
              .ok (some (tagList ++
                (if latestCondition cfg definitionId bs updateLatest variant? then
                  getLatestTagCore tags0 registry registryPath
                else [])))

/-! ### Tag reverse lookup -/

/-- The per-definition variant enumeration used while populating
`definitionTagLookup` in `loadConfig`: the two placeholder spellings followed
by every declared variant, or a single `undefined` entry when the definition
declares no variants. -/
def lookupTagVariants (cfg : Config) (definitionId : String) : List (Option String) :=
  match lookupAssoc cfg.definitionVariants definitionId with
  | some vs => some "${VARIANT}" :: some "$VARIANT" :: vs.map some
  | none => [none]

/-- The sequence of writes to `definitionTagLookup` performed by the loop at
the end of `loadConfig` (lines 59-93 of `config.js`): for every definition
with `tags`, for every lookup variant, record the blank-version tags and then
the dev-version tags generated with the sentinel registry `ANY`/`ANY`.
JS object assignment overwrites, so a later pair with an equal key wins
(`tagLookupGet`).  The unrelated population of `dependencies.imageVariants`
in the same loop does not touch the tag lookup and is not modeled. -/
def populateTagLookup (cfg : Config) : List (String × DefObj) :=
  cfg.definitionBuildSettings.foldl (fun idx entry =>
    match entry.2.tags with
    | none => idx
    | some tags0 =>
      (lookupTagVariants cfg entry.1).foldl (fun idx variant =>
        let idx := (getTagsForVersionCore cfg entry.1 entry.2 tags0 "" "ANY" "ANY"
          variant).foldl (fun idx blankTag =>
            idx ++ [(blankTag, { id := entry.1, variant := variant })]) idx
        (getTagsForVersionCore cfg entry.1 entry.2 tags0 "dev" "ANY" "ANY"
          variant).foldl (fun idx devTag =>
            idx ++ [(devTag, { id := entry.1, variant := variant })]) idx) idx) []

/-- Reading `definitionTagLookup[key]`: the last write to `key` wins. -/
def tagLookupGet (idx : List (String × DefObj)) (key : String) : Option DefObj :=
  (idx.reverse.find? (fun e => e.1 == key)).map (fun e => e.2)

/-- Split a character list at its *last* colon that is followed by at least
one character: exactly the split produced by the greedy groups of the JS
regex `(.+):(.+)` when it runs over the whole remainder.  (The left group may
come back empty here; `execTagPattern` rejects that case, since `(.+)`
requires a nonempty left group.) -/
def splitAtLastColon : List Char → Option (List Char × List Char)
  | [] => none
  | c :: rest =>
    match splitAtLastColon rest with
    | some (l, r) => some (c :: l, r)
    | none => if c = ':' ∧ rest ≠ [] then some ([], rest) else none

/-- Leftmost match of the JS regex `<registry>/<registryPath>/(.+):(.+)`
against `cs`, for *literal* registry strings (no regex metacharacters) and
newline-free input: scan for the first position whose suffix starts with the
literal prefix and whose remainder splits at a colon with nonempty sides;
return the two capture groups. -/
def execTagPattern (pfx : List Char) : List Char → Option (List Char × List Char)
  | [] => none
  | c :: rest =>
    if pfx.isPrefixOf (c :: rest) then
      match splitAtLastColon ((c :: rest).drop pfx.length) with
      | some (l, r) => if l ≠ [] then some (l, r) else execTagPattern pfx rest
      | none => execTagPattern pfx rest
    else execTagPattern pfx rest

/-- `getDefinitionFromTag(tag, registry, registryPath)`.

The JS builds `new RegExp(registry + '/' + registryPath + '/(.+):(.+)')` and
crashes (`captureGroups[1]` on `null`) when it does not match; on a match it
looks up `ANY/ANY/<repo>:<tagPart>` and retries with a leading
`<digits>-` stripped from the tag part.  This embedding covers truthy,
regex-literal `registry`/`registryPath` arguments (the `registry || '.+'`
wildcard defaulting used when callers omit them is not exercised by any
claim and is not modeled). -/
def getDefinitionFromTag (idx : List (String × DefObj)) (tag registry registryPath : String) :
    Except String (Option DefObj) :=
  match execTagPattern (registry ++ "/" ++ registryPath ++ "/").toList tag.toList with
  | none => .error "TypeError: captureGroups is null"
  | some (repoCs, tagPartCs) =>
    let repo := String.mk repoCs
    let tagPart := String.mk tagPartCs
    match tagLookupGet idx ("ANY/ANY/" ++ repo ++ ":" ++ tagPart) with
    | some d => .ok (some d)
    | none =>
      .ok (tagLookupGet idx ("ANY/ANY/" ++ repo ++ ":" ++ stripLeadingNumDash tagPart))

/-! ### Build order planner

`getSortedDefinitionBuildList` mutates the module-level `variantsList` and
`skipParentVariants` arrays; they are modeled as an explicit `PlannerState`
passed in and returned.  The local `parentBuckets` object maps keys to
*shared* array references (multi-parent merging aliases several keys to one
array), modeled as a key-to-reference table plus a reference-indexed store. -/

/-- The module-level planner state (`let variantsList = []`,
`let skipParentVariants = []`), never reset between calls. -/
structure PlannerState where
  variantsList : List (List DefObj)
  skipParentVariants : List DefObj
deriving DecidableEq, Repr

/-- The state of the module as loaded: both accumulator lists empty. -/
def initialPlannerState : PlannerState := ⟨[], []⟩

/-- The `parentBuckets`/`dupeBuckets`/`noParentList` locals of one
`getSortedDefinitionBuildList` call.  `keyRefs` holds the object's keys in
insertion order, each mapped to an index into `store` (the array it
references); `dupeBuckets` both drives the merge logic and models the
later `parentBuckets[currentBucketId] = undefined` pruning. -/
structure BucketPhase where
  keyRefs : List (String × Nat)
  store : List (List String)
  dupeBuckets : List String
  noParentList : List String
deriving DecidableEq, Repr

/-- JS object property read on the bucket map. -/
def objGet (m : List (String × Nat)) (k : String) : Option Nat :=
  (m.find? (fun p => p.1 == k)).map (fun p => p.2)

/-- JS object property write: overwrite in place, or append a new key. -/
def objSet (m : List (String × Nat)) (k : String) (v : Nat) : List (String × Nat) :=
  if m.any (fun p => p.1 == k) then m.map (fun p => if p.1 == k then (k, v) else p)
  else m ++ [(k, v)]

/-- Dereference a bucket array. -/
def storeGet (st : List (List String)) (r : Nat) : List String := st.getD r []

/-- Mutate a bucket array through its reference. -/
def storeSet (st : List (List String)) (r : Nat) (v : List String) : List (List String) :=
  st.set r v

/-- Allocate a fresh array. -/
def allocBucket (st : List (List String)) (v : List String) : Nat × List (List String) :=
  (st.length, st ++ [v])

/-- JS truthiness of a `parent` property (`if (parentId)`): absent or the
empty string is falsy; a non-empty string or a mapping object is truthy. -/
def parentTruthy : Option Parent → Bool
  | none => false
  | some (.single s) => s != ""
  | some (.multi _) => true

/-- The key a parent value is stored under when it is used as an object key.
A mapping used as a key would coerce to the string `[object Object]` in JS
(a pathological case no claim exercises). -/
def parentKeyOf : Parent → String
  | .single s => s
  | .multi _ => "[object Object]"

/-- `bucketDefinition(definitionId, parentId, parentBuckets)`: fold a
one-level parent-of-parent into the grandparent's bucket, then add the
definition to its parent's bucket (creating buckets seeded with the parent
itself).  Throws when `parentId` is not a known definition
(`config.definitionBuildSettings[parentId].parent` on `undefined`). -/
def bucketDefinition (cfg : Config) (definitionId parentId0 : String) (ph : BucketPhase) :
    Except String BucketPhase := do
  let pbs ← match lookupAssoc cfg.definitionBuildSettings parentId0 with
    | some b => pure b
    | none => throw "TypeError: parent build settings are undefined"
  let (parentId, ph) :=
    if parentTruthy pbs.parent then
      let parentId := parentKeyOf (pbs.parent.getD (.single ""))
      let ph :=
        match objGet ph.keyRefs parentId with
        | some _ => ph
        | none =>
          let (r, store) := allocBucket ph.store [parentId]
          { ph with keyRefs := objSet ph.keyRefs parentId r, store := store }
      let ph :=
        match objGet ph.keyRefs parentId with
        | some r =>
          let bucket := storeGet ph.store r
          if bucket.contains parentId0 then ph
          else { ph with store := storeSet ph.store r (bucket ++ [parentId0]) }
        | none => ph
      (parentId, ph)
    else (parentId0, ph)
  let ph :=
    match objGet ph.keyRefs parentId with
    | some _ => ph
    | none =>
      let (r, store) := allocBucket ph.store [parentId]
      { ph with keyRefs := objSet ph.keyRefs parentId r, store := store }
  match objGet ph.keyRefs parentId with
  | some r =>
    let bucket := storeGet ph.store r
    if bucket.contains definitionId then pure ph
    else pure { ph with store := storeSet ph.store r (bucket ++ [definitionId]) }
  | none => pure ph

/-- `createMultiParentBucket(variantParentMap, parentBuckets, dupeBuckets)`:
merge all referenced parents' buckets into the first parent's bucket, alias
the superseded keys to it, record them in `dupeBuckets`, and return the
canonical parent id.  (An empty mapping is a pathological JS case — keys[0]
is `undefined` — and is not exercised by any claim.) -/
def createMultiParentBucket (variantParentMap : List (String × String)) (ph : BucketPhase) :
    String × BucketPhase :=
  let parentId := ((variantParentMap.head?).map (fun e => e.2)).getD ""
  let (fRef, ph) :=
    match objGet ph.keyRefs parentId with
    | some r => (r, ph)
    | none =>
      let (r, store) := allocBucket ph.store [parentId]
      (r, { ph with store := store })
  let ph := variantParentMap.foldl (fun ph entry =>
    let currentParentId := entry.2
    if currentParentId == parentId then ph
    else
      let ph :=
        match objGet ph.keyRefs currentParentId with
        | some cr =>
          if ph.dupeBuckets.contains currentParentId then
            if (storeGet ph.store fRef).contains currentParentId then ph
            else { ph with
              store := storeSet ph.store fRef (storeGet ph.store fRef ++ [currentParentId]) }
          else
            { ph with
              store := storeSet ph.store fRef (storeGet ph.store fRef ++ storeGet ph.store cr) }
        | none =>
          if (storeGet ph.store fRef).contains currentParentId then ph
          else { ph with
            store := storeSet ph.store fRef (storeGet ph.store fRef ++ [currentParentId]) }
      { ph with dupeBuckets := ph.dupeBuckets ++ [currentParentId],
                keyRefs := objSet ph.keyRefs currentParentId fRef }) ph
  (parentId, { ph with keyRefs := objSet ph.keyRefs parentId fRef })

/-- The bucketing pass of `getSortedDefinitionBuildList` (the first `for`
loop): skip excluded ids, bucket definitions with truthy parents, collect
the rest into `noParentList`. -/
def runBucketing (cfg : Config) (definitionsToSkip : List String) :
    Except String BucketPhase :=
  cfg.definitionBuildSettings.foldlM (fun ph entry => do
    let definitionId := entry.1
    let bs := entry.2
    if definitionsToSkip.contains definitionId then
      pure ph
    else
      if parentTruthy bs.parent then
        match bs.parent with
        | some (.single s) => bucketDefinition cfg definitionId s ph
        | some (.multi m) =>
          let (pid, ph) := createMultiParentBucket m ph
          bucketDefinition cfg definitionId pid ph
        | none => pure ph
      else pure { ph with noParentList := ph.noParentList ++ [definitionId] })
    (⟨[], [], [], []⟩ : BucketPhase)

/-- One `noParentList.splice(noParentList.indexOf(parentId), 1)`: remove the
first occurrence — or, when the id is absent (`indexOf` is `-1`), remove the
*last* element (the JS `splice(-1, 1)` footgun). -/
def removeBySplice (l : List String) (x : String) : List String :=
  match l.findIdx? (fun y => y == x) with
  | some i => l.eraseIdx i
  | none => l.dropLast

/-- The `for (let parentId in parentBuckets)` cleanup: every truthy bucket
key is spliced out of `noParentList`. -/
def cleanNoParentList (ph : BucketPhase) : List String :=
  (ph.keyRefs.map (fun p => p.1)).foldl (fun l k =>
    if k == "" then l else removeBySplice l k) ph.noParentList

/-- `addToVariantsList`: scan the rows of `variantsList` in creation order
and each row in insertion order; append the child to the first row holding
an item equal to the parent item.  Returns `none` when no row matches. -/
def pushToFirstMatching (parentItem childItem : DefObj) :
    List (List DefObj) → Option (List (List DefObj))
  | [] => none
  | row :: rest =>
    if row.any (fun it => it == parentItem) then some ((row ++ [childItem]) :: rest)
    else
      match pushToFirstMatching parentItem childItem rest with
      | some rest' => some (row :: rest')
      | none => none

/-- `addToVariantsList(parentItem, childItem)`: attach the child to the first
matching group or open a new `[parent, child]` group, and always record the
parent item in `skipParentVariants`. -/
def addToVariantsList (parentItem childItem : DefObj) (st : PlannerState) : PlannerState :=
  let variantsList :=
    match pushToFirstMatching parentItem childItem st.variantsList with
    | some vl => vl
    | none => st.variantsList ++ [[parentItem, childItem]]
  { variantsList := variantsList,
    skipParentVariants := st.skipParentVariants ++ [parentItem] }

/-- The JS `variant.split('-')[1]` computation of the effective variant id
when `idMismatch === "true"` and the variant contains a dash. -/
def variantIdFor (bs : BuildSettings) (variant : String) : String :=
  if bs.idMismatch && variant.toList.contains '-' then (jsSplit '-' variant).getD 1 ""
  else variant

/-- Processing of one definition inside a bucket during the
variant-chaining pass (the body of `definitionBucket.reverse().forEach`).
`bucketKey` is the enclosing bucket's key (the outer loop's `id`, used by
the tag-bearing pairing groups). -/
def processBucketDef (cfg : Config) (bucketKey definitionId : String) (st : PlannerState) :
    Except String PlannerState := do
  let variants? := lookupAssoc cfg.definitionVariants definitionId
  let bs ← match lookupAssoc cfg.definitionBuildSettings definitionId with
    | some b => pure b
    | none => throw "TypeError: build settings are undefined in bucket"
  if !parentTruthy bs.parent && variants?.isSome then
    let vs := variants?.getD []
    pure (vs.foldl (fun st variant =>
      if (st.skipParentVariants.filter (fun item =>
          item.id == definitionId && item.variant == some variant)).isEmpty then
        { st with variantsList := st.variantsList ++ [[⟨definitionId, some variant⟩]] }
      else st) st)
  else
    match bs.parent with
    | some (.single parentId) =>
      let parentVariants? := lookupAssoc cfg.definitionVariants parentId
      match variants? with
      | some vs =>
        vs.foldlM (fun st variant => do
          let variantId := variantIdFor bs variant
          let parentVariants ← match parentVariants? with
            | some pv => pure pv
            | none => throw "TypeError: includes of undefined"
          if parentVariants.contains variantId then
            pure (addToVariantsList ⟨parentId, some variantId⟩ ⟨definitionId, some variant⟩ st)
          else
            pure { st with
              variantsList := st.variantsList ++ [[⟨definitionId, some variant⟩]] }) st
      | none =>
        match bs.tags with
        | some _ =>
          pure { st with
            variantsList := st.variantsList ++ [[⟨bucketKey, none⟩, ⟨definitionId, none⟩]] }
        | none => pure st
    | some (.multi m) =>
      m.foldlM (fun st entry => do
        let commonVariant := entry.1
        let parentObjId := entry.2
        let parentVariants? := lookupAssoc cfg.definitionVariants parentObjId
        if commonVariant != "" then
          let shouldAddSingleVariant := ((lookupAssoc m commonVariant).getD "") != ""
          let parentVariants ← match parentVariants? with
            | some pv => pure pv
            | none => throw "TypeError: includes of undefined"
          if parentVariants.contains commonVariant then
            pure (addToVariantsList ⟨parentObjId, some commonVariant⟩
              ⟨definitionId, some commonVariant⟩ st)
          else if shouldAddSingleVariant then
            pure { st with
              variantsList := st.variantsList ++ [[⟨definitionId, some commonVariant⟩]] }
          else pure st
        else
          match bs.tags with
          | some _ =>
            pure { st with
              variantsList :=
                st.variantsList ++ [[⟨commonVariant, none⟩, ⟨definitionId, none⟩]] }
          | none => pure st) st
    | none => pure st

/-- The variant-chaining pass: iterate bucket keys in insertion order,
skipping keys pruned to `undefined` (the merged-away duplicates), and
process each bucket's members in reverse insertion order. -/
def runVariantPass (cfg : Config) (ph : BucketPhase) (st : PlannerState) :
    Except String PlannerState :=
  ph.keyRefs.foldlM (fun st kv =>
    if ph.dupeBuckets.contains kv.1 then pure st
    else
      (storeGet ph.store kv.2).reverse.foldlM (fun st definitionId =>
        processBucketDef cfg kv.1 definitionId st) st) st

/-- The `noParentList.forEach` pass: one singleton group per declared
variant, or one tagged variant-less singleton. -/
def runNoParentPass (cfg : Config) (noParentList : List String) (st : PlannerState) :
    Except String PlannerState :=
  noParentList.foldlM (fun st definitionId => do
    match lookupAssoc cfg.definitionVariants definitionId with
    | some vs =>
      pure { st with
        variantsList := st.variantsList ++ vs.map (fun v => [⟨definitionId, some v⟩]) }
    | none =>
      let bs ← match lookupAssoc cfg.definitionBuildSettings definitionId with
        | some b => pure b
        | none => throw "TypeError: build settings are undefined in noParentList"
      match bs.tags with
      | some _ =>
        pure { st with variantsList := st.variantsList ++ [[⟨definitionId, none⟩]] }
      | none => pure st) st

/-- All three planning passes: bucketing, variant chaining, `noParentList`.
Appends the produced build groups to the (module-level) `variantsList`. -/
def computeBuildGroups (cfg : Config) (definitionsToSkip : List String)
    (st : PlannerState) : Except String PlannerState := do
  let ph ← runBucketing cfg definitionsToSkip
  let noParent := cleanNoParentList ph
  let st ← runVariantPass cfg ph st
  runNoParentPass cfg noParent st

/-- The body of the `while (i < allPages.length)` folding loop, with
explicit fuel (each iteration shortens the list by one, so
`pages.length` iterations always suffice; see `foldPagesLoop`). -/
def foldPagesGo : Nat → Nat → List (List DefObj) → List (List DefObj)
  | 0, _, pages => pages
  | fuel + 1, pageTotal, pages =>
    if pageTotal < pages.length then
      foldPagesGo fuel pageTotal
        ((pages.set (pageTotal - 1)
          (pages.getD (pageTotal - 1) [] ++ pages.getD pageTotal [])).eraseIdx pageTotal)
    else pages

/-- The `while (i < allPages.length)` folding loop of the pagination step:
while more pages than requested remain, concatenate the page at index
`pageTotal` onto the page at index `pageTotal - 1` and splice it out. -/
def foldPagesLoop (pageTotal : Nat) (pages : List (List DefObj)) : List (List DefObj) :=
  foldPagesGo pages.length pageTotal pages

/-- The pagination step of `getSortedDefinitionBuildList`: fold excess groups
into the last page, or pad with empty pages. -/
def paginate (pages : List (List DefObj)) (pageTotal : Nat) : List (List DefObj) :=
  if pageTotal < pages.length then foldPagesLoop pageTotal pages
  else if pages.length < pageTotal then
    pages ++ List.replicate (pageTotal - pages.length) []
  else pages

/-- `getSortedDefinitionBuildList(page, pageTotal, definitionsToSkip)`:
normalize falsy `page`/`pageTotal` to 1, run the planning passes, paginate
`variantsList` in place (the mutation is visible in the returned state), and
return the requested page — `none` when `page - 1` is out of range
(JS `allPages[page - 1]` is `undefined`). -/
def getSortedDefinitionBuildList (cfg : Config) (page0 pageTotal0 : Nat)
    (definitionsToSkip : List String) (st : PlannerState) :
    Except String (Option (List DefObj) × PlannerState) := do
  let page := if page0 = 0 then 1 else page0
  let pageTotal := if pageTotal0 = 0 then 1 else pageTotal0
  let st ← computeBuildGroups cfg definitionsToSkip st
  let allPages := paginate st.variantsList pageTotal
  pure (allPages.get? (page - 1), { st with variantsList := allPages })

/-! ### Spec-side definitions (for refinement comparisons) -/

/-- Strip a *trailing* literal `-NOVARIANT`, as claim C8 words the fourth
substitution step (the source removes the first occurrence instead). -/
def stripTrailingNoVariant (s : String) : String :=
  if ("-NOVARIANT".toList).isSuffixOf s.toList then
    String.mk (s.toList.take (s.toList.length - 10))
  else s

/-- The per-template transformation as claim C8 states it: substitute
`${VERSION}`, collapse `:-`, substitute the variant placeholder, then strip a
*trailing* `-NOVARIANT`. -/
def substituteTagSpecC8 (version variantStr tag : String) : String :=
  stripTrailingNoVariant
    (replaceVariantStr variantStr
      (replaceFirstStr ":-" ":"
        (replaceFirstStr "${VERSION}" version tag)))

/-- The replacement claim C7 describes: the text after the *first* colon is
replaced by `latest`, even when that text is empty.  `none` when the
template has no colon. -/
def specLatestReplaceL : List Char → Option (List Char)
  | [] => none
  | c :: rest =>
    if c = ':' then some (':' :: "latest".toList)
    else (specLatestReplaceL rest).map (fun l => c :: l)

/-- `String` version of `specLatestReplaceL`. -/
def specLatestReplace (s : String) : Option String :=
  (specLatestReplaceL s.toList).map String.mk

/-- First-seen-order deduplication (the shape of `getLatestTag`'s reduce). -/
def dedupFirstSeen (l : List String) : List String :=
  l.foldl (fun acc a => if acc.contains a then acc else acc ++ [a]) []

/-- Exactly three dot-separated nonempty numeric parts — the version
well-formedness that claim C3 asserts `getTagList` enforces (the source only
checks the part *count*). -/
def threeNumericParts (version : String) : Bool :=
  let ps := jsSplit '.' version
  ps.length == 3 && ps.all (fun p => p != "" && p.toList.all Char.isDigit)

/-- The recognized `versionPartHandling` values (those with a `switch` case). -/
def vphValid : VersionPartHandling → Bool
  | .ofBool _ => true
  | .ofString s => ["all-latest", "all", "full-only", "major-minor", "major"].contains s

/-- A character the JS `RegExp` constructor treats literally. -/
def regexLiteralChar (c : Char) : Bool :=
  !(['.', '*', '+', '?', '^', '$', '(', ')', '[', ']', '\x7b', '\x7d', '|', '\\'].contains c)

/-- A string that is its own regex (every character literal).  The
`getDefinitionFromTag` embedding is faithful exactly for such
registry/registryPath arguments. -/
def regexLiteral (s : String) : Bool := s.toList.all regexLiteralChar

/-- No line terminators (the JS `.` in a regex does not match them); the
`execTagPattern` embedding is faithful for such tags. -/
def newlineFree (s : String) : Bool :=
  s.toList.all (fun c => (c != '\n') && (c != '\r'))

/-- The write list of `populateTagLookup` contributed by one definition, in
write order (`populateTagLookup_eq_flatMap`). -/
def defTagWrites (cfg : Config) (entry : String × BuildSettings) : List (String × DefObj) :=
  match entry.2.tags with
  | none => []
  | some tags0 =>
    (lookupTagVariants cfg entry.1).flatMap (fun variant =>
      (getTagsForVersionCore cfg entry.1 entry.2 tags0 "" "ANY" "ANY" variant).map
        (fun t => (t, { id := entry.1, variant := variant }))
      ++ (getTagsForVersionCore cfg entry.1 entry.2 tags0 "dev" "ANY" "ANY" variant).map
        (fun t => (t, { id := entry.1, variant := variant })))

/-! ### Concrete registries used by counterexamples and witnesses -/

/-- Build settings of the running `python` example: one versioned, varianted
tag template. -/
def bsPython : BuildSettings := { tags := some ["python:${VERSION}-${VARIANT}"] }

/-- A registry with one definition `python` (variant `bullseye`, recorded
version `1.2.3`). -/
def cfgPython : Config :=
  { definitionBuildSettings := [("python", bsPython)],
    definitionVariants := [("python", ["bullseye"])],
    definitionVersions := [("python", "1.2.3")] }

/-- A definition whose recorded version has three non-numeric parts. -/
def cfgAlpha : Config :=
  { definitionBuildSettings := [("foo", { tags := some ["foo:${VERSION}"] })],
    definitionVersions := [("foo", "a.b.c")] }

/-- A definition whose recorded version has only two parts. -/
def cfgTwoPart : Config :=
  { definitionBuildSettings := [("bad", { tags := some ["bad:${VERSION}"] })],
    definitionVersions := [("bad", "1.2")] }

/-- A definition with a tag template whose substitution leaves a
non-trailing `-NOVARIANT`. -/
def cfgDashMid : Config :=
  { definitionBuildSettings := [("x", { tags := some ["a-${VARIANT}-b"] })] }

/-- A definition whose only tag template ends in a bare colon. -/
def cfgColonEnd : Config :=
  { definitionBuildSettings := [("aend", { tags := some ["a:"] })] }

/-- A definition with no recorded version. -/
def cfgNoVersion : Config :=
  { definitionBuildSettings := [("nov", { tags := some ["nov:${VERSION}"] })] }

/-- A definition with two variants and `latest: true`. -/
def cfgLatest : Config :=
  { definitionBuildSettings :=
      [("py", { tags := some ["py:${VERSION}-${VARIANT}"], latest := .ofBool true })],
    definitionVariants := [("py", ["b1", "b2"])],
    definitionVersions := [("py", "2.0.1")] }

/-- A parent-less definition with one declared variant (claim C10's
registry). -/
def cfgSolo : Config :=
  { definitionBuildSettings := [("solo", { tags := some ["solo:${VERSION}-${VARIANT}"] })],
    definitionVariants := [("solo", ["v1"])] }

/-- A variant-less parent/child pair: the planner emits one two-element
group for it. -/
def cfgPair : Config :=
  { definitionBuildSettings :=
      [("base", { tags := some ["base:${VERSION}"] }),
       ("child", { tags := some ["child:${VERSION}"], parent := some (.single "base") })] }

/-! ### Generic lemmas about the accumulator folds used by the source -/

theorem foldl_append_map {α β : Type} (g : α → β) (l : List α) (init : List β) :
    l.foldl (fun acc a => acc ++ [g a]) init = init ++ l.map g := by
  induction l generalizing init with
  | nil => simp
  | cons a l ih => simp [ih, List.append_assoc]

theorem foldl_append_flat {α β : Type} (g : α → List β) (l : List α) (init : List β) :
    l.foldl (fun acc a => acc ++ g a) init = init ++ l.flatMap g := by
  induction l generalizing init with
  | nil => simp
  | cons a l ih => simp [ih, List.append_assoc]

theorem foldl_cond_append {α β : Type} (p : α → Bool) (g : α → β) (l : List α)
    (init : List β) :
    l.foldl (fun acc a => if p a then acc else acc ++ [g a]) init
      = init ++ l.filterMap (fun a => if p a then none else some (g a)) := by
  induction l generalizing init with
  | nil => simp
  | cons a l ih =>
    by_cases h : p a = true
    · simp [h, ih]
    · simp only [Bool.not_eq_true] at h
      simp [h, ih, List.append_assoc]

/-- `getTagsForVersionCore` is `baseTagsForVersion` under the registry
prefix: the reduce keeps template order, never deduplicates, and the prefix
does not affect which templates survive. -/
theorem core_eq_map_baseTags (cfg : Config) (definitionId : String) (bs : BuildSettings)
    (tags0 : List String) (version registry registryPath : String)
    (variant? : Option String) :
    getTagsForVersionCore cfg definitionId bs tags0 version registry registryPath variant?
      = (baseTagsForVersion cfg definitionId bs tags0 version variant?).map
          (fun b => registry ++ "/" ++ registryPath ++ "/" ++ b) := by
  unfold getTagsForVersionCore baseTagsForVersion
  rw [foldl_cond_append
    (fun tag => endsWithColon (substituteTag (effectiveVersion bs definitionId version)
      (variantSubstValue (defaultedVariant cfg definitionId variant?)) tag))
    (fun tag => registry ++ "/" ++ registryPath ++ "/" ++
      substituteTag (effectiveVersion bs definitionId version)
        (variantSubstValue (defaultedVariant cfg definitionId variant?)) tag)]
  rw [List.map_filterMap]
  simp only [List.nil_append]
  congr 1
  funext tag
  by_cases h : endsWithColon (substituteTag (effectiveVersion bs definitionId version)
      (variantSubstValue (defaultedVariant cfg definitionId variant?)) tag) = true
  · simp [h]
  · simp only [Bool.not_eq_true] at h
    simp [h]

/-- Surviving base tags never end in a colon: that is exactly the filter. -/
theorem baseTags_not_endsWithColon (cfg : Config) (definitionId : String)
    (bs : BuildSettings) (tags0 : List String) (version : String)
    (variant? : Option String) (b : String)
    (hb : b ∈ baseTagsForVersion cfg definitionId bs tags0 version variant?) :
    endsWithColon b = false := by
  unfold baseTagsForVersion at hb
  simp only [List.mem_filterMap] at hb
  obtain ⟨tag, -, htag⟩ := hb
  split at htag
  · simp at htag
  · rename_i h
    rw [Option.some.injEq] at htag
    rw [← htag]
    simp only [Bool.not_eq_true] at h
    exact h

/-- A string ending in a slash. -/
theorem slash_suffix_getLast? (y : String) : (y ++ "/").toList.getLast? = some '/' := by
  show (y ++ "/").data.getLast? = some '/'
  rw [String.data_append]
  rw [show ("/" : String).data = ['/'] from rfl]
  exact List.getLast?_concat y.data

/-- Appending after a slash-terminated prefix cannot create a trailing
colon. -/
theorem endsWithColon_append (x b : String) (hx : x.toList.getLast? = some '/')
    (h : endsWithColon b = false) : endsWithColon (x ++ b) = false := by
  unfold endsWithColon at h ⊢
  rw [show (x ++ b).toList = x.toList ++ b.toList from String.data_append x b]
  by_cases hb : b.toList = []
  · rw [hb, List.append_nil, hx]
    rfl
  · rw [List.getLast?_append_of_ne_nil _ hb]
    exact h

/-! ### Structure of the tag reverse lookup -/

theorem foldl_of_append_step {α β : Type} (f : List β → α → List β) (w : α → List β)
    (hf : ∀ idx a, f idx a = idx ++ w a) (l : List α) (init : List β) :
    l.foldl f init = init ++ l.flatMap w := by
  induction l generalizing init with
  | nil => simp
  | cons a l ih => simp [hf, ih, List.append_assoc]

/-- The nested `forEach` writes of `loadConfig`'s lookup population, as one
flat write list per definition. -/
theorem populateTagLookup_eq_flatMap (cfg : Config) :
    populateTagLookup cfg = cfg.definitionBuildSettings.flatMap (defTagWrites cfg) := by
  unfold populateTagLookup
  rw [foldl_of_append_step _ (defTagWrites cfg) ?hstep cfg.definitionBuildSettings []]
  · simp
  case hstep =>
    intro idx entry
    unfold defTagWrites
    cases htags : entry.2.tags with
    | none => dsimp only; rw [List.append_nil]
    | some tags0 =>
      dsimp only
      rw [foldl_of_append_step _
        (fun variant =>
          (getTagsForVersionCore cfg entry.1 entry.2 tags0 "" "ANY" "ANY" variant).map
            (fun t => ((t, { id := entry.1, variant := variant }) : String × DefObj))
          ++ (getTagsForVersionCore cfg entry.1 entry.2 tags0 "dev" "ANY" "ANY" variant).map
            (fun t => ((t, { id := entry.1, variant := variant }) : String × DefObj)))
        ?istep (lookupTagVariants cfg entry.1) idx]
      case istep =>
        intro idx variant
        dsimp only
        rw [foldl_append_map, foldl_append_map, List.append_assoc]

/-- A successful `lookupAssoc` exhibits a member pair. -/
theorem lookupAssoc_mem {α : Type} (l : List (String × α)) (k : String) (v : α)
    (h : lookupAssoc l k = some v) : (k, v) ∈ l := by
  unfold lookupAssoc at h
  cases hf : l.find? (fun p => p.1 == k) with
  | none => rw [hf] at h; simp at h
  | some e =>
    rw [hf] at h
    simp only [Option.map_some', Option.some.injEq] at h
    have hpred := List.find?_some hf
    have he : e ∈ l := List.mem_of_find?_eq_some hf
    have : e = (k, v) := by
      obtain ⟨e1, e2⟩ := e
      simp only at h hpred
      simp only [beq_iff_eq] at hpred
      simp [hpred, h]
    rw [← this]
    exact he

/-- Every base tag generated for the blank or dev version is written to the
lookup, associated with the definition and lookup-variant that produced
it. -/
theorem mem_populateTagLookup (cfg : Config) (definitionId : String) (bs : BuildSettings)
    (tags0 : List String) (variant? : Option String) (version : String) (b : String)
    (hbs : lookupAssoc cfg.definitionBuildSettings definitionId = some bs)
    (htags : bs.tags = some tags0)
    (hvar : variant? ∈ lookupTagVariants cfg definitionId)
    (hv : version = "" ∨ version = "dev")
    (hb : b ∈ baseTagsForVersion cfg definitionId bs tags0 version variant?) :
    ("ANY/ANY/" ++ b, ({ id := definitionId, variant := variant? } : DefObj))
      ∈ populateTagLookup cfg := by
  rw [populateTagLookup_eq_flatMap]
  rw [List.mem_flatMap]
  refine ⟨(definitionId, bs), lookupAssoc_mem _ _ _ hbs, ?_⟩
  unfold defTagWrites
  simp only [htags]
  rw [List.mem_flatMap]
  refine ⟨variant?, hvar, ?_⟩
  have hmem : ("ANY/ANY/" ++ b)
      ∈ getTagsForVersionCore cfg definitionId bs tags0 version "ANY" "ANY" variant? := by
    rw [core_eq_map_baseTags]
    have : ("ANY" ++ "/" ++ "ANY" ++ "/" ++ b) = "ANY/ANY/" ++ b := by
      rw [show ("ANY" ++ "/" ++ "ANY" ++ "/" : String) = "ANY/ANY/" from rfl]
    rw [← this]
    exact List.mem_map_of_mem _ hb
  rw [List.mem_append]
  rcases hv with hv | hv
  · subst hv
    exact Or.inl (List.mem_map_of_mem _ hmem)
  · subst hv
    exact Or.inr (List.mem_map_of_mem _ hmem)

/-- Last-write-wins object read: when some write has the key and every write
with the key agrees on the value, the read returns that value. -/
theorem tagLookupGet_of_mem_unique (idx : List (String × DefObj)) (key : String) (v : DefObj)
    (hmem : (key, v) ∈ idx)
    (huniq : ∀ e ∈ idx, e.1 = key → e.2 = v) :
    tagLookupGet idx key = some v := by
  unfold tagLookupGet
  cases hf : idx.reverse.find? (fun e => e.1 == key) with
  | none =>
    exfalso
    rw [List.find?_eq_none] at hf
    exact absurd (by simp : (((key, v) : String × DefObj).1 == key) = true)
      (hf _ (List.mem_reverse.mpr hmem))
  | some e =>
    have he1 : e.1 = key := by
      have := List.find?_some hf
      simpa using this
    have he : e ∈ idx := List.mem_reverse.mp (List.mem_of_find?_eq_some hf)
    simp [huniq e he he1]

/-! ### Structure of the tag pattern match -/

/-- `splitAtLastColon` splits the input: rejoining the groups with a colon
restores it. -/
theorem splitAtLastColon_rejoin :
    ∀ cs l r, splitAtLastColon cs = some (l, r) → cs = l ++ ':' :: r := by
  intro cs
  induction cs with
  | nil => intro l r h; simp [splitAtLastColon] at h
  | cons c rest ih =>
    intro l r h
    unfold splitAtLastColon at h
    cases hrec : splitAtLastColon rest with
    | some pr =>
      rw [hrec] at h
      dsimp only at h
      simp only [Option.some.injEq, Prod.mk.injEq] at h
      obtain ⟨h1, h2⟩ := h
      rw [← h1, ← h2]
      have := ih pr.1 pr.2 (by rw [hrec])
      rw [List.cons_append, ← this]
    | none =>
      rw [hrec] at h
      dsimp only at h
      split at h
      · rename_i hc
        simp only [Option.some.injEq, Prod.mk.injEq] at h
        obtain ⟨h1, h2⟩ := h
        rw [← h1, ← h2, hc.1]
        rfl
      · simp at h

/-- The pattern matcher at an exact prefix occurrence: when the remainder
splits at a colon with a nonempty left group, the match succeeds there with
exactly that split. -/
theorem execTagPattern_at_head (p : Char) (ps b l r : List Char)
    (hsplit : splitAtLastColon b = some (l, r)) (hl : l ≠ []) :
    execTagPattern (p :: ps) ((p :: ps) ++ b) = some (l, r) := by
  rw [List.cons_append]
  unfold execTagPattern
  rw [if_pos ?hpfx]
  case hpfx =>
    rw [List.isPrefixOf_iff_prefix]
    rw [← List.cons_append]
    exact List.prefix_append _ _
  rw [show (p :: (ps ++ b)).drop (p :: ps).length = b from ?hdrop]
  case hdrop =>
    rw [← List.cons_append]
    exact List.drop_left _ _
  rw [hsplit]
  dsimp only
  rw [if_pos hl]

/-- Claim C1, as stated, fails for a semantic version: the tag generated for
version `1.2.3` parses back to *no* definition, because the lookup only
holds blank- and dev-version tags and the numeric-prefix strip does not
apply to `1.2.3-bullseye`. -/
theorem getDefinitionFromTag_roundtrip_fails_for_semver :
    getTagsForVersion cfgPython "python" "1.2.3" "r" "p" (some "bullseye")
      = .ok (some ["r/p/python:1.2.3-bullseye"])
    ∧ getDefinitionFromTag (populateTagLookup cfgPython) "r/p/python:1.2.3-bullseye" "r" "p"
      = .ok none
    ∧ (Option.some ({ id := "python", variant := some "bullseye" } : DefObj)) ≠ none :=
  ⟨rfl, rfl, by decide⟩

/-- Claim C1 (amended): the round trip holds for the versions the reverse
index is built from (`""` and `"dev"`), for literal nonempty registry
strings, for a lookup-applicable variant, provided the tag's repository part
splits at a colon and no other registry entry writes the same bare tag.
`hsplit`/`hrepo` expose the capture groups of `(.+):(.+)` on the bare tag;
`huniq` rules out a later overwrite of the lookup entry. -/
theorem getDefinitionFromTag_roundtrip (cfg : Config) (definitionId version : String)
    (registry registryPath : String) (variant? : Option String) (bs : BuildSettings)
    (tags0 : List String) (b : String) (lrepo rtag : List Char)
    (hbs : lookupAssoc cfg.definitionBuildSettings definitionId = some bs)
    (htags : bs.tags = some tags0)
    (hv : version = "" ∨ version = "dev")
    (hvar : variant? ∈ lookupTagVariants cfg definitionId)
    (hb : b ∈ baseTagsForVersion cfg definitionId bs tags0 version variant?)
    (hsplit : splitAtLastColon b.toList = some (lrepo, rtag))
    (hrepo : lrepo ≠ [])
    (hlitR : regexLiteral registry = true) (hlitP : regexLiteral registryPath = true)
    (hRne : registry ≠ "") (hPne : registryPath ≠ "")
    (hnl : newlineFree (registry ++ "/" ++ registryPath ++ "/" ++ b) = true)
    (huniq : ∀ e ∈ populateTagLookup cfg, e.1 = "ANY/ANY/" ++ b →
      e.2 = { id := definitionId, variant := variant? }) :
    ∃ l, getTagsForVersion cfg definitionId version registry registryPath variant?
        = .ok (some l)
      ∧ (registry ++ "/" ++ registryPath ++ "/" ++ b) ∈ l
      ∧ getDefinitionFromTag (populateTagLookup cfg)
          (registry ++ "/" ++ registryPath ++ "/" ++ b) registry registryPath
          = .ok (some { id := definitionId, variant := variant? }) := by
  refine ⟨getTagsForVersionCore cfg definitionId bs tags0 version registry registryPath
    variant?, ?_, ?_, ?_⟩
  · unfold getTagsForVersion
    rw [hbs]
    dsimp only
    rw [htags]
  · rw [core_eq_map_baseTags]
    exact List.mem_map_of_mem _ hb
  · unfold getDefinitionFromTag
    have hX : (registry ++ "/" ++ registryPath ++ "/").toList
        = (registry ++ "/" ++ registryPath).toList ++ [ '/' ] := by
      rw [show (registry ++ "/" ++ registryPath ++ "/").toList
        = (registry ++ "/" ++ registryPath).data ++ ("/" : String).data
        from String.data_append _ _]
      rfl
    have htag : (registry ++ "/" ++ registryPath ++ "/" ++ b).toList
        = (registry ++ "/" ++ registryPath ++ "/").toList ++ b.toList :=
      String.data_append _ _
    cases hXl : (registry ++ "/" ++ registryPath ++ "/").toList with
    | nil => rw [hXl] at hX; exact absurd hX.symm (List.append_ne_nil_of_right_ne_nil _ (by simp))
    | cons p ps =>
      rw [htag, hXl]
      rw [execTagPattern_at_head p ps b.toList lrepo rtag hsplit hrepo]
      dsimp only
      have hkey : ("ANY/ANY/" ++ String.mk lrepo ++ ":" ++ String.mk rtag)
          = "ANY/ANY/" ++ b := by
        have h1 : ("ANY/ANY/" ++ String.mk lrepo ++ ":" ++ String.mk rtag)
            = String.mk ((("ANY/ANY/".toList ++ lrepo) ++ [':']) ++ rtag) := rfl
        have h2 : ("ANY/ANY/" ++ b) = String.mk ("ANY/ANY/".toList ++ b.toList) := rfl
        rw [h1, h2, splitAtLastColon_rejoin b.toList lrepo rtag hsplit]
        congr 1
        simp [List.append_assoc]
      rw [hkey]
      rw [tagLookupGet_of_mem_unique (populateTagLookup cfg) ("ANY/ANY/" ++ b)
        { id := definitionId, variant := variant? }
        (mem_populateTagLookup cfg definitionId bs tags0 variant? version b hbs htags hvar hv hb)
        huniq]

/-- Witness for `getDefinitionFromTag_roundtrip`: the blank-version tag of
`python`/`bullseye` round-trips on the concrete registry `cfgPython`. -/
theorem getDefinitionFromTag_roundtrip_witness :
    ∃ l, getTagsForVersion cfgPython "python" "" "r" "p" (some "bullseye") = .ok (some l)
      ∧ ("r" ++ "/" ++ "p" ++ "/" ++ "python:bullseye") ∈ l
      ∧ getDefinitionFromTag (populateTagLookup cfgPython)
          ("r" ++ "/" ++ "p" ++ "/" ++ "python:bullseye") "r" "p"
          = .ok (some { id := "python", variant := some "bullseye" }) :=
  getDefinitionFromTag_roundtrip cfgPython "python" "" "r" "p" (some "bullseye") bsPython
    ["python:${VERSION}-${VARIANT}"] "python:bullseye" "python".toList "bullseye".toList
    rfl rfl (Or.inl rfl) (by decide) (by decide) (by decide) (by decide)
    (by decide) (by decide) (by decide) (by decide) (by decide) (by decide)

/-- Claim C5: no string returned by `getTagsForVersion` ends in `':'` — a
substituted template ending in a bare colon is discarded, and the surviving
entries end either with the base tag's last character or with the prefix
slash. -/
theorem getTagsForVersion_no_trailing_colon (cfg : Config)
    (definitionId version registry registryPath : String) (variant? : Option String)
    (l : List String) (t : String)
    (hl : getTagsForVersion cfg definitionId version registry registryPath variant?
      = .ok (some l))
    (ht : t ∈ l) : endsWithColon t = false := by
  unfold getTagsForVersion at hl
  cases hbs : lookupAssoc cfg.definitionBuildSettings definitionId with
  | none => rw [hbs] at hl; simp at hl
  | some bs =>
    rw [hbs] at hl
    dsimp only at hl
    cases htags : bs.tags with
    | none => rw [htags] at hl; simp at hl
    | some tags0 =>
      rw [htags] at hl
      dsimp only at hl
      simp only [Except.ok.injEq, Option.some.injEq] at hl
      rw [← hl] at ht
      rw [core_eq_map_baseTags] at ht
      simp only [List.mem_map] at ht
      obtain ⟨b, hb, hbt⟩ := ht
      rw [← hbt]
      exact endsWithColon_append _ b (slash_suffix_getLast? (registry ++ "/" ++ registryPath))
        (baseTags_not_endsWithColon cfg definitionId bs tags0 version variant? b hb)

/-- Witness for `getTagsForVersion_no_trailing_colon` at a concrete call. -/
theorem getTagsForVersion_no_trailing_colon_witness :
    getTagsForVersion cfgPython "python" "" "r" "p" none = .ok (some ["r/p/python:bullseye"])
    ∧ endsWithColon "r/p/python:bullseye" = false :=
  ⟨rfl, getTagsForVersion_no_trailing_colon cfgPython "python" "" "r" "p" none
    ["r/p/python:bullseye"] "r/p/python:bullseye" rfl (by decide)⟩

/-- Claim C8, as stated, fails: the `-NOVARIANT` removal is
first-occurrence, not trailing-only — a template with an interior variant
placeholder and no declared variants loses its interior `-NOVARIANT`. -/
theorem substituteTag_not_trailing_strip :
    getTagsForVersion cfgDashMid "x" "" "r" "p" none = .ok (some ["r/p/a-b"])
    ∧ substituteTagSpecC8 "" "NOVARIANT" "a-${VARIANT}-b" = "a-NOVARIANT-b"
    ∧ "r/p/" ++ "a-NOVARIANT-b" ∉ (["r/p/a-b"] : List String) :=
  ⟨rfl, rfl, by decide⟩

/-- Claim C8 (amended): each template is transformed by substituting the
first `${VERSION}`, collapsing the first `:-`, substituting the first
variant placeholder, and removing the *first* occurrence of `-NOVARIANT`
(`substituteTag`); results ending in a bare colon are discarded and the rest
prefixed with the registry path, in template order, without
deduplication. -/
theorem getTagsForVersion_substitution_structure (cfg : Config)
    (definitionId version registry registryPath : String) (variant? : Option String)
    (bs : BuildSettings) (tags0 : List String)
    (hbs : lookupAssoc cfg.definitionBuildSettings definitionId = some bs)
    (htags : bs.tags = some tags0) :
    getTagsForVersion cfg definitionId version registry registryPath variant?
      = .ok (some ((effectiveTags bs tags0
          (defaultedVariant cfg definitionId variant?)).filterMap (fun tag =>
            if endsWithColon (substituteTag (effectiveVersion bs definitionId version)
                (variantSubstValue (defaultedVariant cfg definitionId variant?)) tag) then
              none
            else
              some (registry ++ "/" ++ registryPath ++ "/" ++
                substituteTag (effectiveVersion bs definitionId version)
                  (variantSubstValue (defaultedVariant cfg definitionId variant?)) tag)))) := by
  unfold getTagsForVersion
  rw [hbs]
  dsimp only
  rw [htags]
  dsimp only
  rw [core_eq_map_baseTags]
  unfold baseTagsForVersion
  rw [List.map_filterMap]
  refine congrArg Except.ok (congrArg Option.some (congrArg
    (fun f => List.filterMap f
      (effectiveTags bs tags0 (defaultedVariant cfg definitionId variant?))) ?_))
  funext tag
  by_cases h : endsWithColon (substituteTag (effectiveVersion bs definitionId version)
      (variantSubstValue (defaultedVariant cfg definitionId variant?)) tag) = true
  · simp [h]
  · simp only [Bool.not_eq_true] at h
    simp [h]

/-- Witness for `getTagsForVersion_substitution_structure` at a concrete
call. -/
theorem getTagsForVersion_substitution_structure_witness :
    getTagsForVersion cfgPython "python" "1.2.3" "r" "p" (some "bullseye")
      = .ok (some ((effectiveTags bsPython ["python:${VERSION}-${VARIANT}"]
          (defaultedVariant cfgPython "python" (some "bullseye"))).filterMap (fun tag =>
            if endsWithColon (substituteTag (effectiveVersion bsPython "python" "1.2.3")
                (variantSubstValue (defaultedVariant cfgPython "python" (some "bullseye")))
                tag) then
              none
            else
              some ("r" ++ "/" ++ "p" ++ "/" ++
                substituteTag (effectiveVersion bsPython "python" "1.2.3")
                  (variantSubstValue (defaultedVariant cfgPython "python" (some "bullseye")))
                  tag)))) :=
  getTagsForVersion_substitution_structure cfgPython "python" "1.2.3" "r" "p"
    (some "bullseye") bsPython ["python:${VERSION}-${VARIANT}"] rfl rfl

/-- Nodup is preserved by the push-if-new fold. -/
theorem dedup_fold_nodup (l acc : List String) (h : acc.Nodup) :
    (l.foldl (fun acc a => if acc.contains a then acc else acc ++ [a]) acc).Nodup := by
  induction l generalizing acc with
  | nil => simpa using h
  | cons a l ih =>
    simp only [List.foldl_cons]
    by_cases hc : acc.contains a = true
    · rw [if_pos hc]
      exact ih _ h
    · rw [if_neg hc]
      refine ih _ ?_
      rw [List.nodup_append]
      refine ⟨h, List.nodup_singleton a, ?_⟩
      intro x hx hxa
      simp only [List.mem_singleton] at hxa
      subst hxa
      exact hc (by simpa using hx)

/-- `getLatestTag`'s reduce is a first-seen-order dedup over the mapped
templates. -/
theorem getLatestTagCore_eq_dedup (tags : List String) (registry registryPath : String) :
    getLatestTagCore tags registry registryPath
      = dedupFirstSeen (tags.map (fun tag =>
          registry ++ "/" ++ registryPath ++ "/" ++ replaceColonRestStr tag)) := by
  unfold getLatestTagCore dedupFirstSeen
  rw [List.foldl_map]

/-- Claim C7, as stated, fails on a template whose first colon is final: the
JS regex `:` followed by one-or-more characters does not match, so the
template is kept unchanged instead of receiving `:latest`. -/
theorem getLatestTag_bare_colon_kept :
    getLatestTag cfgColonEnd "aend" "r" "p" = .ok (some ["r/p/a:"])
    ∧ specLatestReplace "a:" = some "a:latest"
    ∧ "r/p/" ++ "a:latest" ∉ (["r/p/a:"] : List String) :=
  ⟨rfl, rfl, by decide⟩

/-- Claim C7 (amended): `getLatestTag` returns null for an unknown
definition; otherwise each template's suffix after its first colon is
replaced by `latest` *provided at least one character follows that colon*
(`replaceColonRestStr`; a template with no such colon is only prefixed),
results are prefixed with `<registry>/<registryPath>/` and deduplicated
preserving first-seen order, so the output has no duplicates. -/
theorem getLatestTag_spec (cfg : Config) (definitionId registry registryPath : String) :
    (lookupAssoc cfg.definitionBuildSettings definitionId = none →
      getLatestTag cfg definitionId registry registryPath = .ok none)
    ∧ (∀ bs tags, lookupAssoc cfg.definitionBuildSettings definitionId = some bs →
        bs.tags = some tags →
        getLatestTag cfg definitionId registry registryPath
          = .ok (some (dedupFirstSeen (tags.map (fun tag =>
              registry ++ "/" ++ registryPath ++ "/" ++ replaceColonRestStr tag))))
        ∧ (getLatestTagCore tags registry registryPath).Nodup) := by
  constructor
  · intro h
    unfold getLatestTag
    rw [h]
  · intro bs tags hbs htags
    constructor
    · unfold getLatestTag
      rw [hbs]
      dsimp only
      rw [htags]
      dsimp only
      rw [getLatestTagCore_eq_dedup]
    · rw [getLatestTagCore_eq_dedup]
      unfold dedupFirstSeen
      exact dedup_fold_nodup _ [] List.nodup_nil

/-- Witness for `getLatestTag_spec`: the unknown-id branch and a concrete
known definition. -/
theorem getLatestTag_spec_witness :
    getLatestTag cfgLatest "nope" "r" "p" = .ok none
    ∧ (getLatestTag cfgLatest "py" "r" "p"
        = .ok (some (dedupFirstSeen ((["py:${VERSION}-${VARIANT}"]).map (fun tag =>
            "r" ++ "/" ++ "p" ++ "/" ++ replaceColonRestStr tag))))
      ∧ (getLatestTagCore ["py:${VERSION}-${VARIANT}"] "r" "p").Nodup) :=
  ⟨(getLatestTag_spec cfgLatest "nope" "r" "p").1 rfl,
   (getLatestTag_spec cfgLatest "py" "r" "p").2 _ ["py:${VERSION}-${VARIANT}"] rfl rfl⟩

/-! ### Evaluation of getTagList on the semver path -/

/-- Evaluation of `getTagList` when the release resolves to a non-dev
version with three dot-separated parts and a recognized mode: the version
list is expanded in order and the latest tags are appended exactly under
`latestCondition`. -/
theorem getTagList_eval (cfg : Config) (definitionId release : String)
    (vph : VersionPartHandling) (registry registryPath : String)
    (variant? : Option String) (version : String) (bs : BuildSettings)
    (tags0 : List String) (ul uu : Bool) (vl0 : List String)
    (hver : getVersionFromRelease cfg release definitionId = some version)
    (hdev : version ≠ "dev")
    (hlen : (jsSplit '.' version).length = 3)
    (hmode : vphCase vph version (jsSplit '.' version) = some (ul, uu, vl0))
    (hbs : lookupAssoc cfg.definitionBuildSettings definitionId = some bs)
    (htags : bs.tags = some tags0) :
    getTagList cfg definitionId release vph registry registryPath variant?
      = .ok (some (
          ((if uu && !bs.versionedTagsOnly then vl0 ++ [""] else vl0).flatMap
            (fun tagVersion => getTagsForVersionCore cfg definitionId bs tags0 tagVersion
              registry registryPath variant?))
          ++ (if latestCondition cfg definitionId bs ul variant? then
                getLatestTagCore tags0 registry registryPath
              else []))) := by
  unfold getTagList
  rw [hver]
  dsimp only
  rw [if_neg (by simpa using hdev)]
  rw [if_neg (by omega)]
  rw [hmode]
  dsimp only
  rw [hbs]
  dsimp only
  rw [htags]
  dsimp only
  rw [foldl_append_flat]
  rw [List.nil_append]

/-- Claim C6: on the semver path, the latest tags are appended exactly when
`updateLatest` holds for the mode, the definition declares a (truthy)
`latest` property, and the definition has no variants, or the variant equals
the declared latest variant, or `latest === true` and the variant equals the
first declared variant. -/
theorem getTagList_latest_condition (cfg : Config) (definitionId release : String)
    (vph : VersionPartHandling) (registry registryPath : String)
    (variant? : Option String) (version : String) (bs : BuildSettings)
    (tags0 : List String) (ul uu : Bool) (vl0 : List String)
    (hver : getVersionFromRelease cfg release definitionId = some version)
    (hdev : version ≠ "dev")
    (hlen : (jsSplit '.' version).length = 3)
    (hmode : vphCase vph version (jsSplit '.' version) = some (ul, uu, vl0))
    (hbs : lookupAssoc cfg.definitionBuildSettings definitionId = some bs)
    (htags : bs.tags = some tags0) :
    getTagList cfg definitionId release vph registry registryPath variant?
      = .ok (some (
          ((if uu && !bs.versionedTagsOnly then vl0 ++ [""] else vl0).flatMap
            (fun tagVersion => getTagsForVersionCore cfg definitionId bs tags0 tagVersion
              registry registryPath variant?))
          ++ (if ul && latestTruthy bs.latest
                && ((getVariants cfg definitionId).isNone
                  || variantMatchesLatest variant? bs.latest
                  || (latestEqTrue bs.latest
                    && variant? == ((getVariants cfg definitionId).bind List.head?))) then
                getLatestTagCore tags0 registry registryPath
              else []))) := by
  rw [getTagList_eval cfg definitionId release vph registry registryPath variant? version bs
    tags0 ul uu vl0 hver hdev hlen hmode hbs htags]
  have hcond : latestCondition cfg definitionId bs ul variant?
      = (ul && latestTruthy bs.latest
        && ((getVariants cfg definitionId).isNone
          || variantMatchesLatest variant? bs.latest
          || (latestEqTrue bs.latest
            && variant? == ((getVariants cfg definitionId).bind List.head?)))) := by
    unfold latestCondition firstVariantOf
    cases hvars : getVariants cfg definitionId with
    | none => simp
    | some vs => simp
  rw [hcond]

/-- Witness for `getTagList_latest_condition`: the two-variant definition
`py` with `latest: true` in mode `all-latest`. -/
theorem getTagList_latest_condition_witness :
    getTagList cfgLatest "py" "v2.0.1" (.ofString "all-latest") "r" "p" (some "b1")
      = .ok (some (
          ((["2.0.1", "2.0", "2", ""]).flatMap
            (fun tagVersion => getTagsForVersionCore cfgLatest "py"
              { tags := some ["py:${VERSION}-${VARIANT}"], latest := .ofBool true }
              ["py:${VERSION}-${VARIANT}"] tagVersion "r" "p" (some "b1")))
          ++ getLatestTagCore ["py:${VERSION}-${VARIANT}"] "r" "p")) := by
  have h := getTagList_latest_condition cfgLatest "py" "v2.0.1" (.ofString "all-latest")
    "r" "p" (some "b1") "2.0.1"
    { tags := some ["py:${VERSION}-${VARIANT}"], latest := .ofBool true }
    ["py:${VERSION}-${VARIANT}"] true true ["2.0.1", "2.0", "2"]
    rfl (by decide) (by decide) rfl rfl rfl
  rw [h]
  rfl

/-- Claim C3, as stated, fails: the source checks only the *count* of
dot-separated parts, so a three-part non-numeric version such as `a.b.c`
raises no error and expansion proceeds with it. -/
theorem getTagList_accepts_nonnumeric_parts :
    threeNumericParts "a.b.c" = false
    ∧ getTagList cfgAlpha "foo" "v1" (.ofString "all") "r" "p" none
      = .ok (some ["r/p/foo:a.b.c", "r/p/foo:a.b", "r/p/foo:a"]) :=
  ⟨rfl, rfl⟩

/-- Claim C3 (amended): for a known definition with tags, a recognized
`versionPartHandling` and a release resolving to a non-dev version,
`getTagList` raises an error exactly when the resolved version does not
split into exactly three dot-separated parts — the parts need not be
numeric. -/
theorem getTagList_error_iff_bad_split (cfg : Config) (definitionId release : String)
    (vph : VersionPartHandling) (registry registryPath : String)
    (variant? : Option String) (version : String) (bs : BuildSettings)
    (tags0 : List String)
    (hver : getVersionFromRelease cfg release definitionId = some version)
    (hdev : version ≠ "dev")
    (hvalid : vphValid vph = true)
    (hbs : lookupAssoc cfg.definitionBuildSettings definitionId = some bs)
    (htags : bs.tags = some tags0) :
    (∃ e, getTagList cfg definitionId release vph registry registryPath variant?
      = .error e)
    ↔ (jsSplit '.' version).length ≠ 3 := by
  constructor
  · rintro ⟨e, he⟩
    by_contra hlen0
    have hlen : (jsSplit '.' version).length = 3 := by omega
    obtain ⟨ul, uu, vl0, hmode⟩ :
        ∃ ul uu vl0, vphCase vph version (jsSplit '.' version) = some (ul, uu, vl0) := by
      cases vph with
      | ofBool b => cases b <;> exact ⟨_, _, _, rfl⟩
      | ofString s =>
        unfold vphValid at hvalid
        have hs : s = "all-latest" ∨ s = "all" ∨ s = "full-only" ∨ s = "major-minor"
            ∨ s = "major" := by simpa using hvalid
        rcases hs with h | h | h | h | h <;> (subst h; exact ⟨_, _, _, rfl⟩)
    rw [getTagList_eval cfg definitionId release vph registry registryPath variant? version
      bs tags0 ul uu vl0 hver hdev hlen hmode hbs htags] at he
    exact Except.noConfusion he
  · intro hlen
    refine ⟨"Invalid version format in " ++ version ++ ".", ?_⟩
    unfold getTagList
    rw [hver]
    dsimp only
    rw [if_neg (by simpa using hdev)]
    rw [if_pos hlen]

/-- Witness for `getTagList_error_iff_bad_split`: a recorded two-part
version `1.2` raises the error. -/
theorem getTagList_error_iff_bad_split_witness :
    (jsSplit '.' "1.2").length ≠ 3
    ∧ (∃ e, getTagList cfgTwoPart "bad" "v1" (.ofString "all") "r" "p" none = .error e) :=
  ⟨by decide,
   (getTagList_error_iff_bad_split cfgTwoPart "bad" "v1" (.ofString "all") "r" "p" none
     "1.2" { tags := some ["bad:${VERSION}"] } ["bad:${VERSION}"] rfl (by decide) rfl rfl
     rfl).mpr (by decide)⟩

/-- Claim C4, as stated, fails: the release string `"main"` is a branch name
and resolves to `"dev"`, so `getTagList(id, "main", "all", R, P)` returns
only the dev tag set — it contains neither a fully-qualified version tag
(the `1.2.3` expansion) nor an unversioned tag (the empty-version
expansion). -/
theorem getTagList_main_resolves_to_dev :
    getTagList cfgPython "python" "main" (.ofString "all") "r" "p" none
      = .ok (some ["r/p/python:dev-bullseye"])
    ∧ getTagsForVersionCore cfgPython "python" bsPython ["python:${VERSION}-${VARIANT}"]
        "1.2.3" "r" "p" none = ["r/p/python:1.2.3-bullseye"]
    ∧ getTagsForVersionCore cfgPython "python" bsPython ["python:${VERSION}-${VARIANT}"]
        "" "r" "p" none = ["r/p/python:bullseye"]
    ∧ "r/p/python:1.2.3-bullseye" ∉ (["r/p/python:dev-bullseye"] : List String)
    ∧ "r/p/python:bullseye" ∉ (["r/p/python:dev-bullseye"] : List String) :=
  ⟨rfl, rfl, rfl, by decide, by decide⟩

/-- Claim C4 (amended): for a known definition with tag templates and
`versionedTagsOnly = false`, and a release of the form `v<digit>...` whose
recorded version has three dot-separated parts, `getTagList` in mode `all`
expands the full version and the empty version (among others), so its result
contains every full-version tag and every unversioned tag the templates
produce. -/
theorem getTagList_all_includes_full_and_unversioned (cfg : Config)
    (definitionId release registry registryPath : String) (variant? : Option String)
    (bs : BuildSettings) (tags0 : List String) (version tFull tUnv : String)
    (hbs : lookupAssoc cfg.definitionBuildSettings definitionId = some bs)
    (htags : bs.tags = some tags0)
    (hvto : bs.versionedTagsOnly = false)
    (hver : getVersionFromRelease cfg release definitionId = some version)
    (hdev : version ≠ "dev")
    (hlen : (jsSplit '.' version).length = 3)
    (hfull : tFull ∈ getTagsForVersionCore cfg definitionId bs tags0 version registry
      registryPath variant?)
    (hunv : tUnv ∈ getTagsForVersionCore cfg definitionId bs tags0 "" registry
      registryPath variant?) :
    ∃ l, getTagList cfg definitionId release (.ofString "all") registry registryPath
        variant? = .ok (some l)
      ∧ tFull ∈ l ∧ tUnv ∈ l := by
  have heval := getTagList_eval cfg definitionId release (.ofString "all") registry
    registryPath variant? version bs tags0 false true
    [version, (jsSplit '.' version).getD 0 "" ++ "." ++ (jsSplit '.' version).getD 1 "",
      (jsSplit '.' version).getD 0 ""] hver hdev hlen rfl hbs htags
  rw [hvto, if_pos (by decide : ((true && !false) = true))] at heval
  have hlatest : latestCondition cfg definitionId bs false variant? = false := by
    unfold latestCondition
    simp
  rw [hlatest] at heval
  simp only [if_neg (by simp : ¬(false = true)), List.append_nil] at heval
  refine ⟨_, heval, ?_, ?_⟩
  · rw [List.mem_flatMap]
    exact ⟨version, by simp, hfull⟩
  · rw [List.mem_flatMap]
    exact ⟨"", by simp, hunv⟩

/-- Witness for `getTagList_all_includes_full_and_unversioned` at the
concrete `python` registry. -/
theorem getTagList_all_includes_full_and_unversioned_witness :
    ∃ l, getTagList cfgPython "python" "v1.2.3" (.ofString "all") "r" "p"
        (some "bullseye") = .ok (some l)
      ∧ "r/p/python:1.2.3-bullseye" ∈ l ∧ "r/p/python:bullseye" ∈ l :=
  getTagList_all_includes_full_and_unversioned cfgPython "python" "v1.2.3" "r" "p"
    (some "bullseye") bsPython ["python:${VERSION}-${VARIANT}"] "1.2.3"
    "r/p/python:1.2.3-bullseye" "r/p/python:bullseye"
    rfl rfl rfl rfl (by decide) (by decide) (by decide) (by decide)

/-- Claim C9, as stated, fails: for a definition with no recorded version, a
release of the form `v<digit>...` resolves to `undefined` (not `"dev"`), and
`getTagList` then throws instead of returning the dev tag set. -/
theorem getVersionFromRelease_missing_version :
    getVersionFromRelease cfgNoVersion "v1" "nov" = none
    ∧ (none : Option String) ≠ some "dev"
    ∧ getTagList cfgNoVersion "nov" "v1" (.ofString "all") "r" "p" none
      = .error "TypeError: version is undefined" :=
  ⟨rfl, by decide, rfl⟩

/-- Claim C9 (amended): for a definition with no recorded version, any
release *not* of the form `v<digit>...` resolves to `"dev"` and `getTagList`
returns the dev tag set directly; a `v<digit>...` release resolves to no
version at all and `getTagList` throws. -/
theorem getTagList_no_recorded_version (cfg : Config) (definitionId release : String)
    (vph : VersionPartHandling) (registry registryPath : String)
    (variant? : Option String)
    (hnov : lookupAssoc cfg.definitionVersions definitionId = none) :
    (isVersionRelease release = false →
      getVersionFromRelease cfg release definitionId = some "dev"
      ∧ getTagList cfg definitionId release vph registry registryPath variant?
        = getTagsForVersion cfg definitionId "dev" registry registryPath variant?)
    ∧ (isVersionRelease release = true →
      getVersionFromRelease cfg release definitionId = none
      ∧ ∃ e, getTagList cfg definitionId release vph registry registryPath variant?
        = .error e) := by
  constructor
  · intro hrel
    have hv : getVersionFromRelease cfg release definitionId = some "dev" := by
      unfold getVersionFromRelease
      rw [if_neg (by simp [hrel])]
    refine ⟨hv, ?_⟩
    unfold getTagList
    rw [hv]
    dsimp only
    rw [if_pos (by decide : (("dev" : String) == "dev") = true)]
  · intro hrel
    have hv : getVersionFromRelease cfg release definitionId = none := by
      unfold getVersionFromRelease
      rw [if_pos hrel, hnov]
    refine ⟨hv, "TypeError: version is undefined", ?_⟩
    unfold getTagList
    rw [hv]

/-- Witness for `getTagList_no_recorded_version`: branch release `main` and
version release `v1` on the version-less definition `nov`. -/
theorem getTagList_no_recorded_version_witness :
    (getVersionFromRelease cfgNoVersion "main" "nov" = some "dev"
      ∧ getTagList cfgNoVersion "nov" "main" (.ofString "all") "r" "p" none
        = getTagsForVersion cfgNoVersion "nov" "dev" "r" "p" none)
    ∧ (getVersionFromRelease cfgNoVersion "v1" "nov" = none
      ∧ ∃ e, getTagList cfgNoVersion "nov" "v1" (.ofString "all") "r" "p" none
        = .error e) :=
  ⟨(getTagList_no_recorded_version cfgNoVersion "nov" "main" (.ofString "all") "r" "p"
      none rfl).1 rfl,
   (getTagList_no_recorded_version cfgNoVersion "nov" "v1" (.ofString "all") "r" "p"
      none rfl).2 rfl⟩

/-! ### Pagination closed form -/

theorem set_at_append_length {α : Type} (A : List α) (b : α) (t : List α) (v : α) :
    (A ++ b :: t).set A.length v = A ++ v :: t := by
  induction A with
  | nil => rfl
  | cons a A ih => simp [List.set, ih]

theorem getD_at_append_length {α : Type} (A : List α) (b : α) (t : List α) (d : α) :
    (A ++ b :: t).getD A.length d = b := by
  induction A with
  | nil => rfl
  | cons a A ih => simpa using ih

theorem getD_at_append_length_succ {α : Type} (A : List α) (b c : α) (t : List α) (d : α) :
    (A ++ b :: c :: t).getD (A.length + 1) d = c := by
  induction A with
  | nil => rfl
  | cons a A ih => simpa using ih

theorem eraseIdx_at_append_length {α : Type} (A : List α) (b : α) (t : List α) :
    (A ++ b :: t).eraseIdx A.length = A ++ t := by
  induction A with
  | nil => rfl
  | cons a A ih => simpa using ih

theorem flatten_replicate_nil {α : Type} (k : Nat) :
    (List.replicate k ([] : List α)).flatten = [] := by
  induction k with
  | zero => rfl
  | succ k ih => simpa using ih

/-- When no excess pages remain, the loop is the identity. -/
theorem foldPagesGo_no_excess (fuel pt : Nat) (pages : List (List DefObj))
    (h : ¬ pt < pages.length) : foldPagesGo fuel pt pages = pages := by
  cases fuel with
  | zero => rfl
  | succ fuel =>
    unfold foldPagesGo
    rw [if_neg h]

/-- Closed form of the folding loop: with enough fuel, the pages beyond
index `pageTotal - 1` are all concatenated into the page at that index. -/
theorem foldPagesGo_closed (pt : Nat) (hpt : 1 ≤ pt) :
    ∀ n fuel (pages : List (List DefObj)), pages.length = pt + n → n ≤ fuel →
      foldPagesGo fuel pt pages
        = pages.take (pt - 1) ++ [(pages.drop (pt - 1)).flatten] := by
  intro n
  induction n with
  | zero =>
    intro fuel pages hlen _
    rw [foldPagesGo_no_excess fuel pt pages (by omega)]
    have hd : (pages.drop (pt - 1)).length = 1 := by
      rw [List.length_drop]
      omega
    obtain ⟨x, hx⟩ : ∃ x, pages.drop (pt - 1) = [x] := by
      cases hdrop : pages.drop (pt - 1) with
      | nil => rw [hdrop] at hd; simp at hd
      | cons a t =>
        rw [hdrop] at hd
        have ht : t = [] := by simpa using hd
        exact ⟨a, by rw [ht]⟩
    conv_lhs => rw [← List.take_append_drop (pt - 1) pages]
    rw [hx]
    simp
  | succ n ih =>
    intro fuel pages hlen hfuel
    have hlt : pt < pages.length := by omega
    obtain ⟨A, b, c, D, hAlen, hpages⟩ :
        ∃ A b c D, A.length = pt - 1 ∧ pages = A ++ b :: c :: D := by
      cases hd : pages.drop (pt - 1) with
      | nil =>
        have := List.length_drop (pt - 1) pages
        rw [hd] at this
        simp at this
        omega
      | cons b rest =>
        cases rest with
        | nil =>
          have := List.length_drop (pt - 1) pages
          rw [hd] at this
          simp at this
          omega
        | cons c D =>
          refine ⟨pages.take (pt - 1), b, c, D, ?_, ?_⟩
          · rw [List.length_take]
            omega
          · conv_lhs => rw [← List.take_append_drop (pt - 1) pages]
            rw [hd]
    subst hpages
    cases fuel with
    | zero => omega
    | succ fuel =>
      unfold foldPagesGo
      rw [if_pos hlt]
      have hstep : (((A ++ b :: c :: D).set (pt - 1)
            ((A ++ b :: c :: D).getD (pt - 1) [] ++ (A ++ b :: c :: D).getD pt [])).eraseIdx
            pt) = A ++ (b ++ c) :: D := by
        rw [show pt - 1 = A.length by omega, show pt = A.length + 1 by omega]
        rw [getD_at_append_length, getD_at_append_length_succ, set_at_append_length]
        rw [show A ++ (b ++ c) :: c :: D = (A ++ [b ++ c]) ++ c :: D by simp]
        rw [show A.length + 1 = (A ++ [b ++ c]).length by simp]
        rw [eraseIdx_at_append_length]
        simp
      rw [hstep]
      rw [ih fuel (A ++ (b ++ c) :: D) (by simp at hlen ⊢; omega) (by omega)]
      rw [show pt - 1 = A.length by omega]
      rw [List.take_left, List.take_left, List.drop_left, List.drop_left]
      simp

/-- Claim C2, as stated, fails: the planning passes can produce a two-entry
group (a variant-less parent/child pairing), and then the summed page
lengths equal the number of *(definition, variant) entries* (2), not the
number of groups (1). -/
theorem pagination_sum_is_entries_not_groups :
    computeBuildGroups cfgPair [] initialPlannerState
      = .ok ⟨[[⟨"base", none⟩, ⟨"child", none⟩]], []⟩
    ∧ ((paginate [[⟨"base", none⟩, ⟨"child", none⟩]] 1).map List.length).sum = 2
    ∧ ([[⟨"base", none⟩, ⟨"child", none⟩]] : List (List DefObj)).length = 1
    ∧ (2 : Nat) ≠ 1 :=
  ⟨rfl, rfl, rfl, by decide⟩

/-- Claim C2 (amended): pagination conserves the (definition, variant)
*entries* — the concatenation of all pages equals the concatenation of the
input groups, so the summed page lengths equal the summed group lengths
(the group *count* is only preserved when every group is a singleton); the
result always has exactly `pageTotal` pages: with more groups than pages the
excess groups (from index `pageTotal` on, together with the page before
them) are concatenated into the last page, and with fewer groups trailing
empty pages are appended. -/
theorem paginate_conserves (groups : List (List DefObj)) (pageTotal : Nat)
    (hpt : 1 ≤ pageTotal) :
    (paginate groups pageTotal).flatten = groups.flatten
    ∧ ((paginate groups pageTotal).map List.length).sum
        = (groups.map List.length).sum
    ∧ (paginate groups pageTotal).length = pageTotal
    ∧ (groups.length ≤ pageTotal →
        paginate groups pageTotal
          = groups ++ List.replicate (pageTotal - groups.length) [])
    ∧ (pageTotal < groups.length →
        paginate groups pageTotal
          = groups.take (pageTotal - 1) ++ [(groups.drop (pageTotal - 1)).flatten]) := by
  have hform : paginate groups pageTotal
      = if pageTotal < groups.length then
          groups.take (pageTotal - 1) ++ [(groups.drop (pageTotal - 1)).flatten]
        else groups ++ List.replicate (pageTotal - groups.length) [] := by
    unfold paginate foldPagesLoop
    by_cases h : pageTotal < groups.length
    · rw [if_pos h, if_pos h]
      exact foldPagesGo_closed pageTotal hpt (groups.length - pageTotal) groups.length
        groups (by omega) (by omega)
    · rw [if_neg h, if_neg h]
      by_cases h2 : groups.length < pageTotal
      · rw [if_pos h2]
      · rw [if_neg h2]
        have : pageTotal - groups.length = 0 := by omega
        rw [this]
        simp
  have hflat : (paginate groups pageTotal).flatten = groups.flatten := by
    rw [hform]
    by_cases h : pageTotal < groups.length
    · rw [if_pos h]
      rw [List.flatten_append]
      simp only [List.flatten_cons, List.flatten_nil, List.append_nil]
      rw [← List.flatten_append, List.take_append_drop]
    · rw [if_neg h]
      rw [List.flatten_append, flatten_replicate_nil, List.append_nil]
  refine ⟨hflat, ?_, ?_, ?_, ?_⟩
  · rw [← List.length_flatten, ← List.length_flatten, hflat]
  · rw [hform]
    by_cases h : pageTotal < groups.length
    · rw [if_pos h]
      simp only [List.length_append, List.length_take, List.length_cons,
        List.length_nil]
      omega
    · rw [if_neg h]
      simp only [List.length_append, List.length_replicate]
      omega
  · intro h
    rw [hform, if_neg (by omega)]
  · intro h
    rw [hform, if_pos h]

/-- Witness for `paginate_conserves`: three singleton groups into two
pages. -/
theorem paginate_conserves_witness :
    ((paginate [[⟨"a", none⟩], [⟨"b", none⟩], [⟨"c", none⟩]] 2).flatten
        = ([[⟨"a", none⟩], [⟨"b", none⟩], [⟨"c", none⟩]] : List (List DefObj)).flatten)
    ∧ ((paginate [[⟨"a", none⟩], [⟨"b", none⟩], [⟨"c", none⟩]] 2).map List.length).sum
        = (([[⟨"a", none⟩], [⟨"b", none⟩], [⟨"c", none⟩]] :
            List (List DefObj)).map List.length).sum
    ∧ (paginate [[⟨"a", none⟩], [⟨"b", none⟩], [⟨"c", none⟩]] 2).length = 2 :=
  ⟨(paginate_conserves [[⟨"a", none⟩], [⟨"b", none⟩], [⟨"c", none⟩]] 2 (by decide)).1,
   (paginate_conserves [[⟨"a", none⟩], [⟨"b", none⟩], [⟨"c", none⟩]] 2 (by decide)).2.1,
   (paginate_conserves [[⟨"a", none⟩], [⟨"b", none⟩], [⟨"c", none⟩]] 2 (by decide)).2.2.1⟩

/-- Claim C10: the planner is not deterministic across calls — on the
registry `cfgSolo` (one parent-less definition with a declared variant) two
successive calls with identical arguments return different lists, the second
containing the first call's group twice, because `variantsList` and
`skipParentVariants` persist in the module state. -/
theorem getSortedDefinitionBuildList_not_deterministic :
    getSortedDefinitionBuildList cfgSolo 1 1 [] initialPlannerState
      = .ok (some [⟨"solo", some "v1"⟩],
          ⟨[[⟨"solo", some "v1"⟩]], []⟩)
    ∧ getSortedDefinitionBuildList cfgSolo 1 1 []
        ⟨[[⟨"solo", some "v1"⟩]], []⟩
      = .ok (some [⟨"solo", some "v1"⟩, ⟨"solo", some "v1"⟩],
          ⟨[[⟨"solo", some "v1"⟩, ⟨"solo", some "v1"⟩]], []⟩)
    ∧ ([⟨"solo", some "v1"⟩] : List DefObj)
        ≠ [⟨"solo", some "v1"⟩, ⟨"solo", some "v1"⟩]
    ∧ ([⟨"solo", some "v1"⟩, ⟨"solo", some "v1"⟩] : List DefObj)
        = [⟨"solo", some "v1"⟩] ++ [⟨"solo", some "v1"⟩] :=
  ⟨rfl, rfl, by decide, rfl⟩

end ImagesConfig
